/-
Verification of the root-finding library's polynomial utilities and solvers.

The Python source is shallowly embedded over ℚ: Python floats are modelled as
exact rationals (the claims under scrutiny concern exact arithmetic and
control flow, not rounding), Python lists as `List ℚ`, and fallible code as
`Except`.  Wall-clock fields (`execution_time`, per-step timing) are not
modelled.  Each definition mirrors one Python function and is named after it.
-/
import Mathlib

/-- The literal `1e-15` appearing in the Python source. -/
def eps15 : ℚ := 1 / 10 ^ 15

/-- The literal `1e-10` appearing in the Python source. -/
def eps10 : ℚ := 1 / 10 ^ 10

/-- The divergence-guard literal `1e10` appearing in the Python source. -/
def big10 : ℚ := 10 ^ 10

namespace PolynomialUtils

/-- Embeds `PolynomialUtils.horners_rule` (src/src/utils/polynomial_utils.py,
lines 18-55): `result = coefficients[0]`, then
`result = result * x + coefficient` over the remaining coefficients;
an empty list returns `0.0`. -/
def horners_rule (coefficients : List ℚ) (x : ℚ) : ℚ :=
  match coefficients with
  | [] => 0
  | c :: rest => rest.foldl (fun result coefficient => result * x + coefficient) c

/-- Embeds `PolynomialUtils.horners_rule_with_derivative` (lines 57-89).
The value accumulator folds over `coefficients[1:]`; the "derivative"
accumulator starts from `coefficients[0]` and folds over
`coefficients[1:-1]` (i.e. `rest.dropLast`), exactly as the Python loop
`for i, coefficient in enumerate(coefficients[1:-1], 1)` does.  Note the
Python loop never multiplies by the powers, which is the defect
established below. -/
def horners_rule_with_derivative (coefficients : List ℚ) (x : ℚ) : ℚ × ℚ :=
  match coefficients with
  | [] => (0, 0)
  | [c] => (c, 0)
  | c :: rest =>
      let p := rest.foldl (fun p coefficient => p * x + coefficient) c
      let pPrime := rest.dropLast.foldl (fun q coefficient => q * x + coefficient) c
      (p, pPrime)

/-- Recursion implementing the synthetic-division loop of
`PolynomialUtils.synthetic_division` (lines 91-128).  The Python code builds
the full row `quotient = [c0, c1 + q*root, ...]` and pops the last entry as
the remainder; this recursion returns the same (initial-segment, last-entry)
pair: the accumulator `acc` is the most recently computed row entry, it is
contributed to the quotient precisely when more coefficients follow, and the
final accumulator is the popped remainder. -/
def synDivRun (root : ℚ) : ℚ → List ℚ → List ℚ × ℚ
  | acc, [] => ([], acc)
  | acc, c :: cs =>
      let next := c + acc * root
      let res := synDivRun root next cs
      (acc :: res.1, res.2)

/-- Embeds `PolynomialUtils.synthetic_division` (lines 91-128): empty input
returns `([], 0.0)`; a single coefficient returns `([], coefficients[0])`
(this is also what `synDivRun` yields); otherwise the synthetic-division
row is computed and split into quotient and remainder. -/
def synthetic_division (coefficients : List ℚ) (root : ℚ) : List ℚ × ℚ :=
  match coefficients with
  | [] => ([], 0)
  | c :: rest => synDivRun root c rest

/-- The two `ValueError` branches of `PolynomialUtils.deflate_polynomial`
(lines 130-162). -/
inductive DeflateError where
  | notARoot : DeflateError
  | nonzeroRemainder : DeflateError
deriving DecidableEq

/-- Embeds `PolynomialUtils.deflate_polynomial` (lines 130-162): first checks
`abs(horners_rule(coeffs, root)) > tolerance` (raising the not-a-root
`ValueError`), then performs synthetic division and checks
`abs(remainder) > tolerance` (raising the non-zero-remainder `ValueError`),
otherwise returns the quotient. -/
def deflate_polynomial (coefficients : List ℚ) (root : ℚ) (tolerance : ℚ) :
    Except DeflateError (List ℚ) :=
  let function_value := horners_rule coefficients root
  if |function_value| > tolerance then .error .notARoot
  else
    let qr := synthetic_division coefficients root
    if |qr.2| > tolerance then .error .nonzeroRemainder
    else .ok qr.1

/-- The `for i, coeff in enumerate(coefficients[:-1])` loop of
`polynomial_derivative_coefficients`, carrying the running index `i`. -/
def pdcAux (degree : ℕ) : ℕ → List ℚ → List ℚ
  | _, [] => []
  | i, coeff :: rest => ((degree - i : ℕ) : ℚ) * coeff :: pdcAux degree (i + 1) rest

/-- Embeds `PolynomialUtils.polynomial_derivative_coefficients`
(lines 180-201): for length ≤ 1 returns `[0.0]`, otherwise maps
`power * coeff` with `power = degree - i` over all but the constant term. -/
def polynomial_derivative_coefficients (coefficients : List ℚ) : List ℚ :=
  if coefficients.length ≤ 1 then [0]
  else pdcAux (coefficients.length - 1) 0 coefficients.dropLast

/-- Modelled from the spec for the refinement claim about `hornersRule`:
the "naive Σ aᵢxⁱ formula" with coefficients given highest-degree-first,
`p(x) = Σ_{i} coeffs[i]·x^(n-i)` where `n` is the degree. -/
def directPolynomialEval (coefficients : List ℚ) (x : ℚ) : ℚ :=
  ∑ i ∈ Finset.range coefficients.length,
    coefficients.getD i 0 * x ^ (coefficients.length - 1 - i)

end PolynomialUtils

/-- Embeds the `IterationResult` dataclass (src/src/core/base_solver.py,
lines 39-69); the per-step `execution_time` (wall clock, default 0.0) is not
modelled. -/
structure IterationResult where
  iteration : ℕ
  x_value : ℚ
  f_value : ℚ
  error : Option ℚ := none
  relative_error : Option ℚ := none
deriving DecidableEq

/-- Embeds the `SolverResult` dataclass (lines 72-113).  `execution_time`
(wall clock) is not modelled.  The Python field `iteration_history` stores a
*reference* to the solver's own mutable list (`self.iteration_history` is
passed without copying), so in this embedding a returned result's history is
read through the solver state returned alongside it: at any point in time,
the history visible through a previously returned `SolverResult` is the
`iteration_history` field of the solver state at that time. -/
structure SolverResult where
  root : ℚ
  iterations : ℕ
  convergence_achieved : Bool
  final_error : ℚ
  method_name : String
  function_evaluations : ℕ
deriving DecidableEq

/-- Embeds `BaseSolver.check_convergence` (lines 165-185). -/
def check_convergence (tolerance x_new x_old f_value : ℚ) : Bool :=
  if |f_value| < tolerance then true
  else if |x_new - x_old| < tolerance * (1 + |x_new|) then true
  else false

/-- Embeds `BaseSolver.calculate_errors` (lines 187-200). -/
def calculate_errors (x_new x_old : ℚ) : ℚ × ℚ :=
  let absolute_error := |x_new - x_old|
  let relative_error :=
    if x_new ≠ 0 then absolute_error / (|x_new| + eps15) else absolute_error
  (absolute_error, relative_error)

/-- Loop-carried state of the Bisection / False Position `solve()` loops:
current bracket endpoints and their cached function values, the solver's
history list and evaluation counter (reset at the start of `solve()`), and a
ghost counter `calls` recording how many times the supplied Python callable
has actually been invoked during this `solve()` call (each
`self.evaluate_function(x)` performs one invocation and one counter
increment). -/
structure BracketRun where
  a : ℚ
  b : ℚ
  fa : ℚ
  fb : ℚ
  hist : List IterationResult
  evals : ℕ
  calls : ℕ

/-- Mutable state of a `BisectionSolver` instance
(src/src/algorithms/bisection.py): configuration plus the tracking fields of
`BaseSolver.__init__`.  The auxiliary `initial_interval_length` field (used
only by the diagnostic `estimate_iterations_needed`) is not modelled. -/
structure BisectionSolver where
  function : ℚ → ℚ
  tolerance : ℚ
  max_iterations : ℕ
  a : ℚ
  b : ℚ
  iteration_history : List IterationResult
  function_evaluations : ℕ

/-- Embeds `BisectionSolver.__init__` (lines 26-65): evaluates `f` at both
endpoints through `evaluate_function` (so the instance starts with
`function_evaluations = 2`), raises `ValueError` when `fa * fb > 0`, and
swaps the endpoints so that `a < b`. -/
def BisectionSolver.new (f : ℚ → ℚ) (a b tolerance : ℚ) (max_iterations : ℕ) :
    Except String BisectionSolver :=
  let fa := f a
  let fb := f b
  if fa * fb > 0 then
    .error "ValueError: Function values at endpoints must have opposite signs."
  else
    let p := if a > b then (b, a) else (a, b)
    .ok ⟨f, tolerance, max_iterations, p.1, p.2, [], 2⟩

/-- Outcome of one pass through the body of the Bisection `solve()` loop:
either the loop returns a `SolverResult` (convergence) or continues with an
updated bracket. -/
inductive BisectionStepResult where
  | done : SolverResult → BracketRun → BisectionStepResult
  | next : BracketRun → BisectionStepResult

/-- Embeds the body of the `for iteration in range(1, max_iterations + 1)`
loop of `BisectionSolver.solve` (lines 95-133): midpoint, function value
(through `evaluate_function`), half-width error, history append, convergence
test `|f(c)| < tol or error < tol`, then the endpoint replacement
(`b = c` when `fa * fc < 0`, else `a = c`). -/
def bisectionStep (f : ℚ → ℚ) (tolerance : ℚ) (iteration : ℕ) (s : BracketRun) :
    BisectionStepResult :=
  let c := (s.a + s.b) / 2
  let fc := f c
  let evals := s.evals + 1
  let calls := s.calls + 1
  let error := |s.b - s.a| / 2
  let relative_error := error / (|c| + eps15)
  let hist := s.hist ++ [⟨iteration, c, fc, some error, some relative_error⟩]
  if |fc| < tolerance ∨ error < tolerance then
    .done ⟨c, iteration, true, error, "Bisection Method", evals⟩
      ⟨s.a, s.b, s.fa, s.fb, hist, evals, calls⟩
  else if s.fa * fc < 0 then
    .next ⟨s.a, c, s.fa, fc, hist, evals, calls⟩
  else
    .next ⟨c, s.b, fc, s.fb, hist, evals, calls⟩

/-- The Bisection `solve()` loop, with fuel counting the remaining
iterations; when the fuel runs out the maximum-iterations epilogue of
`solve` (lines 135-148) returns the final midpoint with
`convergence_achieved = False` and `iterations = max_iterations`. -/
def bisectionLoop (f : ℚ → ℚ) (tolerance : ℚ) (N : ℕ) (fuel iteration : ℕ)
    (s : BracketRun) : SolverResult × BracketRun :=
  if _h : fuel = 0 then
    let c := (s.a + s.b) / 2
    (⟨c, N, false, |s.b - s.a| / 2, "Bisection Method", s.evals⟩, s)
  else
    match bisectionStep f tolerance iteration s with
    | .done r s' => (r, s')
    | .next s' => bisectionLoop f tolerance N (fuel - 1) (iteration + 1) s'
termination_by fuel
decreasing_by omega

/-- Embeds `BisectionSolver.solve` (lines 71-148): `reset_counters()`, two
seed evaluations of `f` at the endpoints, the iteration-0 history entry
(with `error = |b - a|` and no relative error), then the loop.  Returns the
updated solver state (whose `iteration_history` is the list aliased by the
returned result), the result, and the ghost count of actual invocations of
the supplied function during this call. -/
def bisectionSolve (s : BisectionSolver) : BisectionSolver × SolverResult × ℕ :=
  let fa := s.function s.a
  let fb := s.function s.b
  let run0 : BracketRun :=
    ⟨s.a, s.b, fa, fb, [⟨0, s.a, fa, some |s.b - s.a|, none⟩], 2, 2⟩
  let out := bisectionLoop s.function s.tolerance s.max_iterations
    s.max_iterations 1 run0
  ({ s with iteration_history := out.2.hist,
            function_evaluations := out.2.evals },
   out.1, out.2.calls)

/-- Mutable state of a `FalsePositionSolver` instance
(src/src/algorithms/false_position.py). -/
structure FalsePositionSolver where
  function : ℚ → ℚ
  tolerance : ℚ
  max_iterations : ℕ
  a : ℚ
  b : ℚ
  iteration_history : List IterationResult
  function_evaluations : ℕ

/-- Embeds `FalsePositionSolver.__init__` (lines 26-64): identical
validation to Bisection. -/
def FalsePositionSolver.new (f : ℚ → ℚ) (a b tolerance : ℚ)
    (max_iterations : ℕ) : Except String FalsePositionSolver :=
  let fa := f a
  let fb := f b
  if fa * fb > 0 then
    .error "ValueError: Function values at endpoints must have opposite signs."
  else
    let p := if a > b then (b, a) else (a, b)
    .ok ⟨f, tolerance, max_iterations, p.1, p.2, [], 2⟩

/-- Outcome of one pass through the body of the False Position `solve()`
loop.  `zeroDiv` embeds the `ZeroDivisionError` Python raises when the
interpolation denominator `f(b) - f(a)` is zero (the code has no guard). -/
inductive FPStepResult where
  | zeroDiv : FPStepResult
  | done : SolverResult → BracketRun → FPStepResult
  | next : BracketRun → FPStepResult

/-- Embeds the body of the `for iteration in range(1, max_iterations + 1)`
loop of `FalsePositionSolver.solve` (lines 94-133): interpolation point
`x_new = a - fa*(b-a)/(fb-fa)` (raising `ZeroDivisionError` when
`fb - fa = 0`), error `min(|x_new-a|, |x_new-b|)`, history append,
convergence test `|f_new| < tol or error < tol`, then the endpoint
replacement (`b = x_new` when `fa * f_new < 0`, else `a = x_new`). -/
def falsePositionStep (f : ℚ → ℚ) (tolerance : ℚ) (iteration : ℕ)
    (s : BracketRun) : FPStepResult :=
  if s.fb - s.fa = 0 then .zeroDiv
  else
    let x_new := s.a - (s.fa * (s.b - s.a)) / (s.fb - s.fa)
    let f_new := f x_new
    let evals := s.evals + 1
    let calls := s.calls + 1
    let error := min |x_new - s.a| |x_new - s.b|
    let relative_error := error / (|x_new| + eps15)
    let hist := s.hist ++ [⟨iteration, x_new, f_new, some error, some relative_error⟩]
    if |f_new| < tolerance ∨ error < tolerance then
      .done ⟨x_new, iteration, true, error,
          "False Position Method (Regula Falsi)", evals⟩
        ⟨s.a, s.b, s.fa, s.fb, hist, evals, calls⟩
    else if s.fa * f_new < 0 then
      .next ⟨s.a, x_new, s.fa, f_new, hist, evals, calls⟩
    else
      .next ⟨x_new, s.b, f_new, s.fb, hist, evals, calls⟩

/-- The False Position `solve()` loop; the maximum-iterations epilogue
(lines 135-148) recomputes `x_new` once more (again able to raise
`ZeroDivisionError`) and returns it with `convergence_achieved = False`. -/
def falsePositionLoop (f : ℚ → ℚ) (tolerance : ℚ) (N : ℕ) (fuel iteration : ℕ)
    (s : BracketRun) : Except String (SolverResult × BracketRun) :=
  if _h : fuel = 0 then
    if s.fb - s.fa = 0 then .error "ZeroDivisionError"
    else
      let x_new := s.a - (s.fa * (s.b - s.a)) / (s.fb - s.fa)
      .ok (⟨x_new, N, false, min |x_new - s.a| |x_new - s.b|,
          "False Position Method (Regula Falsi)", s.evals⟩, s)
  else
    match falsePositionStep f tolerance iteration s with
    | .zeroDiv => .error "ZeroDivisionError"
    | .done r s' => .ok (r, s')
    | .next s' => falsePositionLoop f tolerance N (fuel - 1) (iteration + 1) s'
termination_by fuel
decreasing_by omega

/-- Embeds `FalsePositionSolver.solve` (lines 70-148): reset, seed
evaluations, iteration-0 history entry, then the loop. -/
def falsePositionSolve (s : FalsePositionSolver) :
    Except String (FalsePositionSolver × SolverResult × ℕ) :=
  let fa := s.function s.a
  let fb := s.function s.b
  let run0 : BracketRun :=
    ⟨s.a, s.b, fa, fb, [⟨0, s.a, fa, some |s.b - s.a|, none⟩], 2, 2⟩
  match falsePositionLoop s.function s.tolerance s.max_iterations
      s.max_iterations 1 run0 with
  | .error e => .error e
  | .ok (r, run) =>
      .ok ({ s with iteration_history := run.hist,
                    function_evaluations := run.evals },
           r, run.calls)

/-- Observer: the continuation state of a bisection step, or the given
default when the step returned instead of continuing. -/
def BisectionStepResult.nextOr (r : BisectionStepResult) (dflt : BracketRun) :
    BracketRun :=
  match r with
  | .next s => s
  | _ => dflt

/-- Observer: the continuation state of a false-position step, or the given
default when the step returned or raised instead of continuing. -/
def FPStepResult.nextOr (r : FPStepResult) (dflt : BracketRun) : BracketRun :=
  match r with
  | .next s => s
  | _ => dflt

/-- Observer: the sign product `fa * fb` carried by a continuation state of
a bisection step, when the step continues. -/
def nextSignProduct (r : BisectionStepResult) : Option ℚ :=
  match r with
  | .next s => some (s.fa * s.fb)
  | _ => none

/-- The bracketing invariant on a loop state: the cached values are the
function values at the endpoints and they have (strictly) opposite signs. -/
def bracketInv (f : ℚ → ℚ) (s : BracketRun) : Prop :=
  s.fa = f s.a ∧ s.fb = f s.b ∧ s.fa * s.fb < 0

/-- Embeds `NumericalDerivative.central_difference`
(src/src/core/base_solver.py, lines 279-282), the estimator the spec says
Newton-Raphson falls back to: `(f(x + h) - f(x - h)) / (2h)`. -/
def central_difference (f : ℚ → ℚ) (x h : ℚ) : ℚ :=
  (f (x + h) - f (x - h)) / (2 * h)

/-- Configuration of a `NewtonRaphsonSolver`
(src/src/algorithms/newton_raphson.py, lines 29-53). -/
structure NewtonRaphsonSolver where
  function : ℚ → ℚ
  derivative : Option (ℚ → ℚ)
  initial_guess : ℚ
  tolerance : ℚ
  max_iterations : ℕ

/-- Embeds `NewtonRaphsonSolver.__init__` (lines 29-53).  When no analytical
derivative is supplied the constructor executes
`self.numerical_derivative = NumericalDerivative(self.function)`; the class
`NumericalDerivative` (base_solver.py, lines 271-287) declares only
`@staticmethod`s and defines no `__init__`, so Python's default object
construction rejects the positional argument and the constructor raises
`TypeError: NumericalDerivative() takes no arguments`.  (Had construction
succeeded, `solve` would call
`self.numerical_derivative.central_difference(x)`, binding `x` to the
function parameter `f` of the static method and raising again.) -/
def NewtonRaphsonSolver.new (function : ℚ → ℚ) (derivative : Option (ℚ → ℚ))
    (initial_guess tolerance : ℚ) (max_iterations : ℕ) :
    Except String NewtonRaphsonSolver :=
  match derivative with
  | some d => .ok ⟨function, some d, initial_guess, tolerance, max_iterations⟩
  | none => .error "TypeError: NumericalDerivative() takes no arguments"

/-- Mutable state of a `SecantSolver` instance
(src/src/algorithms/secant.py). -/
structure SecantSolver where
  function : ℚ → ℚ
  x0 : ℚ
  x1 : ℚ
  tolerance : ℚ
  max_iterations : ℕ
  iteration_history : List IterationResult
  function_evaluations : ℕ

/-- Loop-carried state of `SecantSolver.solve`: the two current points and
their cached function values, history and counters, the Python local
`error` (`lastError`, unbound before the first completed loop body — the
epilogue reads `error if 'error' in locals() else abs(f_curr)`), the ghost
invocation counter `calls`, and the ghost count `steps` of loop bodies that
actually performed a secant update. -/
structure SecantRun where
  x_prev : ℚ
  x_curr : ℚ
  f_prev : ℚ
  f_curr : ℚ
  hist : List IterationResult
  evals : ℕ
  calls : ℕ
  lastError : Option ℚ
  steps : ℕ

/-- The maximum-iterations / early-`break` epilogue of `SecantSolver.solve`
(lines 124-136): `root = x_curr`, `iterations = max_iterations`,
`convergence_achieved = False`. -/
def secantEpilogue (N : ℕ) (s : SecantRun) : SolverResult × SecantRun :=
  (⟨s.x_curr, N, false, s.lastError.getD |s.f_curr|, "Secant Method",
    s.evals⟩, s)

/-- Outcome of one pass through the body of the Secant `solve()` loop:
`stop` is the `break` on near-equal function values, `done` a return from
inside the loop, `next` a continuation. -/
inductive SecantStepResult where
  | stop : SecantStepResult
  | done : SolverResult → SecantRun → SecantStepResult
  | next : SecantRun → SecantStepResult

/-- Embeds the body of the `for iteration in range(2, max_iterations + 1)`
loop of `SecantSolver.solve` (lines 81-122): `break` when
`|f_curr - f_prev| < 1e-15`, otherwise the secant update (one evaluation
through `evaluate_function`), history append, and `check_convergence`.
(Lean's ℚ division by zero yields `0`; in `solve` the slope's denominator
`x_curr - x_prev` can only vanish when the cached function values are equal,
which the `break` guard intercepts first.) -/
def secantStep (f : ℚ → ℚ) (tolerance : ℚ) (iteration : ℕ) (s : SecantRun) :
    SecantStepResult :=
  if |s.f_curr - s.f_prev| < eps15 then .stop
  else
    let slope := (s.f_curr - s.f_prev) / (s.x_curr - s.x_prev)
    let x_new := s.x_curr - s.f_curr / slope
    let f_new := f x_new
    let evals := s.evals + 1
    let calls := s.calls + 1
    let err := calculate_errors x_new s.x_curr
    let hist := s.hist ++ [⟨iteration, x_new, f_new, some err.1, some err.2⟩]
    if check_convergence tolerance x_new s.x_curr f_new then
      .done ⟨x_new, iteration, true, err.1, "Secant Method", evals⟩
        ⟨s.x_prev, s.x_curr, s.f_prev, s.f_curr, hist, evals, calls,
         some err.1, s.steps + 1⟩
    else
      .next ⟨s.x_curr, x_new, s.f_curr, f_new, hist, evals, calls,
        some err.1, s.steps + 1⟩

/-- The Secant `solve()` loop; both the `break` and running out of fuel
fall through to the epilogue. -/
def secantLoop (f : ℚ → ℚ) (tolerance : ℚ) (N : ℕ) (fuel iteration : ℕ)
    (s : SecantRun) : SolverResult × SecantRun :=
  if _h : fuel = 0 then secantEpilogue N s
  else
    match secantStep f tolerance iteration s with
    | .stop => secantEpilogue N s
    | .done r s' => (r, s')
    | .next s' => secantLoop f tolerance N (fuel - 1) (iteration + 1) s'
termination_by fuel
decreasing_by omega

/-- Embeds `SecantSolver.solve` (lines 52-136): reset, two seed evaluations
through `evaluate_function`, history entries at indices 0 and 1, then the
loop starting at iteration index 2 (`range(2, N + 1)` runs `N - 1` bodies).
Returns the updated solver state, the result, the ghost invocation count,
and the ghost count of secant updates actually performed. -/
def secantSolve (s : SecantSolver) : SecantSolver × SolverResult × ℕ × ℕ :=
  let f_prev := s.function s.x0
  let f_curr := s.function s.x1
  let run0 : SecantRun :=
    ⟨s.x0, s.x1, f_prev, f_curr,
     [⟨0, s.x0, f_prev, none, none⟩, ⟨1, s.x1, f_curr, none, none⟩],
     2, 2, none, 0⟩
  let out := secantLoop s.function s.tolerance s.max_iterations
    (s.max_iterations - 1) 2 run0
  ({ s with iteration_history := out.2.hist,
            function_evaluations := out.2.evals },
   out.1, out.2.calls, out.2.steps)

/-- Gaussian rationals: the exact fragment of ℂ in which the Muller solver's
field arithmetic happens.  The irrational parts of Python's `complex`
(`cmath.sqrt` and the magnitude `abs`) are abstracted as parameters of the
Muller embedding below. -/
structure GaussQ where
  re : ℚ
  im : ℚ
deriving DecidableEq

instance : Zero GaussQ := ⟨⟨0, 0⟩⟩

instance : Add GaussQ := ⟨fun z w => ⟨z.re + w.re, z.im + w.im⟩⟩

instance : Sub GaussQ := ⟨fun z w => ⟨z.re - w.re, z.im - w.im⟩⟩

instance : Neg GaussQ := ⟨fun z => ⟨-z.re, -z.im⟩⟩

instance : Mul GaussQ :=
  ⟨fun z w => ⟨z.re * w.re - z.im * w.im, z.re * w.im + z.im * w.re⟩⟩

/-- Complex division `z / w = z·conj(w) / |w|²` (components are rational).
Lean's ℚ convention makes division by `0` yield `0`, where Python's complex
division raises `ZeroDivisionError`; none of the theorems below depend on a
path that divides by zero. -/
def GaussQ.div (z w : GaussQ) : GaussQ :=
  let n := w.re ^ 2 + w.im ^ 2
  ⟨(z.re * w.re + z.im * w.im) / n, (z.im * w.re - z.re * w.im) / n⟩

/-- Analogue of `SolverResult` for Muller, whose root is complex (Python
returns `x.real` when `|imag| < 1e-10`, modelled as zeroing the imaginary
part). -/
structure MullerResult where
  root : GaussQ
  iterations : ℕ
  convergence_achieved : Bool
  final_error : ℚ
  method_name : String
  function_evaluations : ℕ

/-- Mutable state of a `MullerSolver` instance
(src/src/algorithms/muller.py); the three seeds are stored as complex
numbers (`complex(x0)` etc.). -/
structure MullerSolver where
  function : GaussQ → GaussQ
  x0 : GaussQ
  x1 : GaussQ
  x2 : GaussQ
  tolerance : ℚ
  max_iterations : ℕ
  iteration_history : List IterationResult
  function_evaluations : ℕ

/-- Loop-carried state of `MullerSolver.solve`: the sliding three-point
window `x = [p0, p1, p2]` with cached values `f = [f0, f1, f2]`, history and
counters, the Python local `error` (unbound before the first completed
body), and ghost counters as in `SecantRun`. -/
structure MullerRun where
  p0 : GaussQ
  p1 : GaussQ
  p2 : GaussQ
  f0 : GaussQ
  f1 : GaussQ
  f2 : GaussQ
  hist : List IterationResult
  evals : ℕ
  calls : ℕ
  lastError : Option ℚ
  steps : ℕ

/-- Collapse of a complex value to its real part when `|imag| < 1e-10`,
as in the `root=` fields of `MullerSolver.solve`. -/
def mullerRoot (z : GaussQ) : GaussQ :=
  if |z.im| < eps10 then ⟨z.re, 0⟩ else z

/-- The maximum-iterations / early-`break` epilogue of `MullerSolver.solve`
(lines 167-180): `final_x = x[2]`, `iterations = max_iterations`,
`convergence_achieved = False`,
`final_error = error if bound else abs(f[2])`. -/
def mullerEpilogue (cabs : GaussQ → ℚ) (N : ℕ) (s : MullerRun) :
    MullerResult × MullerRun :=
  (⟨mullerRoot s.p2, N, false, s.lastError.getD (cabs s.f2),
    "Muller's Method", s.evals⟩, s)

/-- Outcome of one pass through the body of the Muller `solve()` loop:
`stop` covers both `break`s (coincident points, near-zero denominator). -/
inductive MullerStepResult where
  | stop : MullerStepResult
  | done : MullerResult → MullerRun → MullerStepResult
  | next : MullerRun → MullerStepResult

/-- Embeds the body of the `for iteration in range(3, max_iterations + 1)`
loop of `MullerSolver.solve` (lines 82-165), parametrized by the complex
magnitude `cabs` and principal square root `csqrt` (irrational in general,
hence abstract here; the theorems below need only `cabs 0 = 0`).  `break`
on coincident points (`|h0|` or `|h1| < 1e-15`, with `h0 = x1 - x0`,
`h1 = x2 - x1`) or a near-zero chosen denominator; otherwise the
quadratic-interpolation update, history append (recording `x_new.real` and
`|f_new|`), the convergence test `error < tol or |f_new| < tol`, and the
divergence guard `|x_new| > 1e10`. -/
def mullerStep (cabs : GaussQ → ℚ) (csqrt : GaussQ → GaussQ)
    (f : GaussQ → GaussQ) (tolerance : ℚ) (iteration : ℕ) (s : MullerRun) :
    MullerStepResult :=
  if cabs (s.p1 - s.p0) < eps15 ∨ cabs (s.p2 - s.p1) < eps15 then .stop
  else
    let h0 := s.p1 - s.p0
    let h1 := s.p2 - s.p1
    let delta0 := (s.f1 - s.f0).div h0
    let delta1 := (s.f2 - s.f1).div h1
    let a := (delta1 - delta0).div (h1 + h0)
    let b := a * h1 + delta1
    let c := s.f2
    let discriminant := b * b - (⟨4, 0⟩ : GaussQ) * a * c
    let sq := csqrt discriminant
    let denominator :=
      if cabs (b + sq) > cabs (b - sq) then b + sq else b - sq
    if cabs denominator < eps15 then .stop
    else
      let dx := (-(⟨2, 0⟩ : GaussQ) * c).div denominator
      let x_new := s.p2 + dx
      let f_new := f x_new
      let evals := s.evals + 1
      let calls := s.calls + 1
      let error := cabs dx
      let relative_error := error / (cabs x_new + eps15)
      let hist := s.hist ++
        [⟨iteration, x_new.re, cabs f_new, some error, some relative_error⟩]
      if error < tolerance ∨ cabs f_new < tolerance then
        .done ⟨mullerRoot x_new, iteration, true, error, "Muller's Method",
            evals⟩
          ⟨s.p0, s.p1, s.p2, s.f0, s.f1, s.f2, hist, evals, calls,
           some error, s.steps + 1⟩
      else if cabs x_new > big10 then
        .done ⟨mullerRoot x_new, iteration, false, error, "Muller's Method",
            evals⟩
          ⟨s.p0, s.p1, s.p2, s.f0, s.f1, s.f2, hist, evals, calls,
           some error, s.steps + 1⟩
      else
        .next ⟨s.p1, s.p2, x_new, s.f1, s.f2, f_new, hist, evals, calls,
          some error, s.steps + 1⟩

/-- The Muller `solve()` loop; both `break`s and running out of fuel fall
through to the epilogue. -/
def mullerLoop (cabs : GaussQ → ℚ) (csqrt : GaussQ → GaussQ)
    (f : GaussQ → GaussQ) (tolerance : ℚ) (N : ℕ) (fuel iteration : ℕ)
    (s : MullerRun) : MullerResult × MullerRun :=
  if _h : fuel = 0 then mullerEpilogue cabs N s
  else
    match mullerStep cabs csqrt f tolerance iteration s with
    | .stop => mullerEpilogue cabs N s
    | .done r s' => (r, s')
    | .next s' => mullerLoop cabs csqrt f tolerance N (fuel - 1)
        (iteration + 1) s'
termination_by fuel
decreasing_by omega

/-- Embeds `MullerSolver.solve` (lines 55-180): reset, three seed
evaluations through `evaluate_function`, history entries at indices 0-2
(recording real parts and magnitudes), then the loop starting at iteration
index 3 (`range(3, N + 1)` runs `N - 2` bodies). -/
def mullerSolve (cabs : GaussQ → ℚ) (csqrt : GaussQ → GaussQ)
    (s : MullerSolver) : MullerSolver × MullerResult × ℕ × ℕ :=
  let f0 := s.function s.x0
  let f1 := s.function s.x1
  let f2 := s.function s.x2
  let run0 : MullerRun :=
    ⟨s.x0, s.x1, s.x2, f0, f1, f2,
     [⟨0, s.x0.re, cabs f0, none, none⟩, ⟨1, s.x1.re, cabs f1, none, none⟩,
      ⟨2, s.x2.re, cabs f2, none, none⟩], 3, 3, none, 0⟩
  let out := mullerLoop cabs csqrt s.function s.tolerance s.max_iterations
    (s.max_iterations - 2) 3 run0
  ({ s with iteration_history := out.2.hist,
            function_evaluations := out.2.evals },
   out.1, out.2.calls, out.2.steps)

/-- Mutable state of a `FixedPointSolver` instance
(src/src/algorithms/fixed_point.py).  The base-class `function` field is the
residual `lambda x: x - g_function(x)`, never used by `solve`, which works
directly with `g_function`. -/
structure FixedPointSolver where
  g_function : ℚ → ℚ
  initial_guess : ℚ
  tolerance : ℚ
  max_iterations : ℕ
  iteration_history : List IterationResult
  function_evaluations : ℕ

/-- Loop-carried state of `FixedPointSolver.solve`: the current iterate,
history and counter, the ghost invocation counter `calls` for `g`, and the
Python locals `(error, f_new)` (`lastState`), both unbound before the first
loop body — the epilogue reads
`error if 'error' in locals() else abs(f_new)`, which raises a
`NameError` when the loop never ran (`max_iterations = 0`). -/
structure FixedPointRun where
  x : ℚ
  hist : List IterationResult
  evals : ℕ
  calls : ℕ
  lastState : Option (ℚ × ℚ)

/-- Outcome of one pass through the body of the Fixed-Point `solve()`
loop: a return from inside the loop (convergence or divergence) or a
continuation. -/
inductive FixedPointStepResult where
  | done : SolverResult → FixedPointRun → FixedPointStepResult
  | next : FixedPointRun → FixedPointStepResult

/-- Embeds the body of the `for iteration in range(1, max_iterations + 1)`
loop of `FixedPointSolver.solve` (lines 86-135).  Each body invokes `g`
twice — `x_new = self.g_function(x)` followed by the manual counter
increment `self.function_evaluations += 1`, and the *uncounted* residual
evaluation `f_new = x_new - self.g_function(x_new)` — so `calls` grows by 2
while `evals` grows by 1.  Convergence test `error < tol or |f_new| < tol`;
divergence guard `|x_new| > 1e10`. -/
def fixedPointStep (g : ℚ → ℚ) (tolerance : ℚ) (iteration : ℕ)
    (s : FixedPointRun) : FixedPointStepResult :=
  let x_new := g s.x
  let evals := s.evals + 1
  let f_new := x_new - g x_new
  let calls := s.calls + 2
  let err := calculate_errors x_new s.x
  let hist := s.hist ++ [⟨iteration, x_new, f_new, some err.1, some err.2⟩]
  if err.1 < tolerance ∨ |f_new| < tolerance then
    .done ⟨x_new, iteration, true, err.1,
      "Fixed-Point Method (Method of Successive Approximation)", evals⟩
      ⟨x_new, hist, evals, calls, some (err.1, f_new)⟩
  else if |x_new| > big10 then
    .done ⟨x_new, iteration, false, err.1,
      "Fixed-Point Method (Method of Successive Approximation)", evals⟩
      ⟨x_new, hist, evals, calls, some (err.1, f_new)⟩
  else
    .next ⟨x_new, hist, evals, calls, some (err.1, f_new)⟩

/-- The Fixed-Point `solve()` loop; the epilogue reads the Python local
`error`, raising a `NameError` when the loop never ran. -/
def fixedPointLoop (g : ℚ → ℚ) (tolerance : ℚ) (N : ℕ) :
    ℕ → ℕ → FixedPointRun → Except String (SolverResult × FixedPointRun)
  | 0, _, s =>
      match s.lastState with
      | none => .error "NameError: name accessed before assignment"
      | some st =>
          .ok (⟨s.x, N, false, st.1,
            "Fixed-Point Method (Method of Successive Approximation)",
            s.evals⟩, s)
  | fuel + 1, iteration, s =>
      match fixedPointStep g tolerance iteration s with
      | .done r s' => .ok (r, s')
      | .next s' => fixedPointLoop g tolerance N fuel (iteration + 1) s'

/-- Embeds `FixedPointSolver.solve` (lines 59-149): reset, the *uncounted*
initial residual evaluation `f_x = x - self.g_function(x)` (one invocation
of `g`), the iteration-0 history entry, then the loop (the non-verbose
path; `verbose=True` would invoke `g` additionally for printing). -/
def fixedPointSolve (s : FixedPointSolver) :
    Except String (FixedPointSolver × SolverResult × ℕ) :=
  let f_x := s.initial_guess - s.g_function s.initial_guess
  let run0 : FixedPointRun :=
    ⟨s.initial_guess, [⟨0, s.initial_guess, f_x, none, none⟩], 0, 1, none⟩
  match fixedPointLoop s.g_function s.tolerance s.max_iterations
      s.max_iterations 1 run0 with
  | .error e => .error e
  | .ok (r, run) =>
      .ok ({ s with iteration_history := run.hist,
                    function_evaluations := run.evals },
           r, run.calls)

namespace PolynomialUtils

lemma foldl_horner_shift (x : ℚ) :
    ∀ (l : List ℚ) (a b : ℚ),
      l.foldl (fun p c => p * x + c) (a + b) =
        l.foldl (fun p c => p * x + c) a + b * x ^ l.length := by
  intro l
  induction l with
  | nil => intro a b; simp
  | cons d ds ih =>
      intro a b
      have h1 : (a + b) * x + d = (a * x + d) + b * x := by ring
      simp only [List.foldl_cons, List.length_cons, h1, ih]
      ring

lemma horner_cons (c : ℚ) (l : List ℚ) (x : ℚ) :
    horners_rule (c :: l) x = c * x ^ l.length + horners_rule l x := by
  cases l with
  | nil => simp [horners_rule]
  | cons d ds =>
      show (d :: ds).foldl (fun p c => p * x + c) c = _
      have h1 : (c : ℚ) * x + d = d + c * x := by ring
      simp only [List.foldl_cons, h1, foldl_horner_shift]
      show ds.foldl (fun p c => p * x + c) d + c * x * x ^ ds.length = _
      simp [horners_rule, List.length_cons]
      ring

lemma synDivRun_length (root : ℚ) :
    ∀ (l : List ℚ) (acc : ℚ), (synDivRun root acc l).1.length = l.length := by
  intro l
  induction l with
  | nil => intro acc; simp [synDivRun]
  | cons c cs ih => intro acc; simp [synDivRun, ih]

lemma synDivRun_identity (r x : ℚ) :
    ∀ (l : List ℚ) (c : ℚ),
      horners_rule (c :: l) x =
        (x - r) * horners_rule ((synDivRun r c l).1) x + (synDivRun r c l).2 := by
  intro l
  induction l with
  | nil =>
      intro c
      simp [horners_rule, synDivRun]
  | cons d ds ih =>
      intro c
      have hfold : horners_rule (c :: d :: ds) x =
          horners_rule ((c * x + d) :: ds) x := by
        simp [horners_rule]
      have hsplit : (c : ℚ) * x + d = (d + c * r) + c * (x - r) := by ring
      have hshift : horners_rule ((c * x + d) :: ds) x =
          horners_rule ((d + c * r) :: ds) x + c * (x - r) * x ^ ds.length := by
        cases ds with
        | nil => simp [horners_rule]; ring
        | cons e es =>
            show (e :: es).foldl (fun p c => p * x + c) (c * x + d) = _
            rw [hsplit, foldl_horner_shift]
            show (e :: es).foldl (fun p c => p * x + c) (d + c * r) +
                c * (x - r) * x ^ (e :: es).length = _
            simp [horners_rule]
      have hrec : synDivRun r c (d :: ds) =
          ((c :: (synDivRun r (d + c * r) ds).1), (synDivRun r (d + c * r) ds).2) := by
        simp [synDivRun]
      rw [hfold, hshift, ih (d + c * r), hrec]
      rw [horner_cons, synDivRun_length]
      ring

/-- The synthetic-division remainder is the polynomial value at the root. -/
lemma synthetic_division_remainder (coefficients : List ℚ) (r : ℚ) :
    (synthetic_division coefficients r).2 = horners_rule coefficients r := by
  cases coefficients with
  | nil => simp [synthetic_division, horners_rule]
  | cons c rest =>
      have h := synDivRun_identity r r rest c
      simp only [synthetic_division]
      rw [h]
      ring

/-- Horner evaluation agrees with the naive highest-degree-first sum. -/
lemma horner_eq_direct (coefficients : List ℚ) (x : ℚ) :
    horners_rule coefficients x = directPolynomialEval coefficients x := by
  induction coefficients with
  | nil => simp [horners_rule, directPolynomialEval]
  | cons c l ih =>
      rw [horner_cons, ih]
      simp only [directPolynomialEval, List.length_cons, Nat.add_sub_cancel]
      rw [Finset.sum_range_succ']
      have hs : ∑ i ∈ Finset.range l.length,
          (c :: l).getD (i + 1) 0 * x ^ (l.length - (i + 1)) =
          ∑ i ∈ Finset.range l.length, l.getD i 0 * x ^ (l.length - 1 - i) := by
        refine Finset.sum_congr rfl ?_
        intro i _
        have hexp : l.length - (i + 1) = l.length - 1 - i := by omega
        simp [hexp]
      rw [hs]
      simp only [List.getD_cons_zero, Nat.sub_zero]
      ring

end PolynomialUtils

/-- C4: the claim states `horners_rule_with_derivative(coeffs, x)` returns
`(p(x), p'(x))` with the true derivative, e.g. second component `2x` for
coefficients `[1, 0, 0]`.  The code's derivative accumulator never multiplies
by the exponents, so at `x = 1` it returns `1` where the true derivative —
also per the library's own `polynomial_derivative_coefficients` — is `2`.
The code contradicts its own docstring (`Returns Tuple of (f(x), f'(x))`). -/
theorem C4_horner_derivative_code_bug :
    PolynomialUtils.horners_rule_with_derivative [1, 0, 0] 1 = (1, 1) ∧
    PolynomialUtils.polynomial_derivative_coefficients [1, 0, 0] = [2, 0] ∧
    PolynomialUtils.horners_rule [2, 0] 1 = 2 ∧ (1 : ℚ) ≠ 2 := by
  refine ⟨?_, ?_, ?_, by norm_num⟩
  · norm_num [PolynomialUtils.horners_rule_with_derivative]
  · norm_num [PolynomialUtils.polynomial_derivative_coefficients,
      PolynomialUtils.pdcAux]
  · norm_num [PolynomialUtils.horners_rule]

/-- C8: synthetic division satisfies the division identity
`p(x) = (x - r)·q(x) + rem` for every non-empty coefficient list in exact
arithmetic; a single coefficient yields an empty quotient and itself as
remainder; and the documented example divides `x³-6x²+11x-6` by `(x-1)`
into quotient `[1,-5,6]` with remainder `0`. -/
theorem C8_synthetic_division_identity :
    (∀ (coefficients : List ℚ) (r x : ℚ), coefficients ≠ [] →
        PolynomialUtils.horners_rule coefficients x =
          (x - r) * PolynomialUtils.horners_rule
              (PolynomialUtils.synthetic_division coefficients r).1 x +
            (PolynomialUtils.synthetic_division coefficients r).2) ∧
    (∀ c r : ℚ, PolynomialUtils.synthetic_division [c] r = ([], c)) ∧
    PolynomialUtils.synthetic_division [1, -6, 11, -6] 1 = ([1, -5, 6], 0) := by
  refine ⟨?_, fun c r => rfl,
    by norm_num [PolynomialUtils.synthetic_division, PolynomialUtils.synDivRun]⟩
  intro coefficients r x hne
  match coefficients with
  | c :: rest => exact PolynomialUtils.synDivRun_identity r x rest c

/-- Witness for C8 at the documented example, divided at `r = 1`,
evaluated at `x = 2`. -/
theorem C8_synthetic_division_identity_witness :
    ([1, -6, 11, -6] : List ℚ) ≠ [] ∧
    PolynomialUtils.horners_rule [1, -6, 11, -6] 2 =
      (2 - 1) * PolynomialUtils.horners_rule
          (PolynomialUtils.synthetic_division [1, -6, 11, -6] 1).1 2 +
        (PolynomialUtils.synthetic_division [1, -6, 11, -6] 1).2 :=
  ⟨by simp, C8_synthetic_division_identity.1 [1, -6, 11, -6] 1 2 (by simp)⟩

/-- C9: Horner evaluation equals the naive direct sum `Σ aᵢ·x^(n-i)` for
every coefficient list and every `x` in exact arithmetic, and the empty
coefficient list evaluates to `0`. -/
theorem C9_horners_rule_equals_direct_eval :
    (∀ (coefficients : List ℚ) (x : ℚ),
        PolynomialUtils.horners_rule coefficients x =
          PolynomialUtils.directPolynomialEval coefficients x) ∧
    (∀ x : ℚ, PolynomialUtils.horners_rule [] x = 0) :=
  ⟨fun coefficients x => PolynomialUtils.horner_eq_direct coefficients x,
   fun _ => rfl⟩

/-- C10: `deflate_polynomial` raises the not-a-root error exactly when
`|p(root)| > tol`, otherwise returns the synthetic-division quotient, and
the non-zero-remainder branch is unreachable because the remainder equals
`p(root)` in exact arithmetic. -/
theorem C10_deflate_polynomial_error_behavior :
    ∀ (coefficients : List ℚ) (root tolerance : ℚ),
      (PolynomialUtils.deflate_polynomial coefficients root tolerance =
        if tolerance < |PolynomialUtils.horners_rule coefficients root|
          then .error .notARoot
          else .ok (PolynomialUtils.synthetic_division coefficients root).1) ∧
      PolynomialUtils.deflate_polynomial coefficients root tolerance ≠
        .error .nonzeroRemainder := by
  intro coefficients root tolerance
  have hrem := PolynomialUtils.synthetic_division_remainder coefficients root
  by_cases h : tolerance < |PolynomialUtils.horners_rule coefficients root|
  · constructor
    · simp [PolynomialUtils.deflate_polynomial, h]
    · simp [PolynomialUtils.deflate_polynomial, h]
  · constructor
    · simp [PolynomialUtils.deflate_polynomial, h, hrem]
    · simp [PolynomialUtils.deflate_polynomial, h, hrem]

/-- Witness for C10 at the documented example with tolerance `1e-10`. -/
theorem C10_deflate_polynomial_error_behavior_witness :
    PolynomialUtils.deflate_polynomial [1, -6, 11, -6] 1 (1 / 10 ^ 10) ≠
      .error .nonzeroRemainder :=
  (C10_deflate_polynomial_error_behavior [1, -6, 11, -6] 1 (1 / 10 ^ 10)).2

/-- When the bracket product is strictly negative and the retained endpoint
value `fa` does not form a sign change with the new value `fc` (the
`else` replacement branch), the new pair `(fc, fb)` does. -/
lemma bracket_keep_sign {fa fb fc : ℚ} (h : fa * fb < 0) (hfc : fc ≠ 0)
    (hcase : ¬ fa * fc < 0) : fc * fb < 0 := by
  have hfa : fa ≠ 0 := by
    intro h0
    rw [h0] at h
    simp at h
  have hprod : 0 ≤ fa * fc := not_lt.mp hcase
  rcases lt_or_gt_of_ne hfa with hfa1 | hfa1
  · have hfb : 0 < fb := by nlinarith
    have hfc1 : fc < 0 := by
      rcases lt_or_gt_of_ne hfc with h1 | h1
      · exact h1
      · nlinarith
    exact mul_neg_of_neg_of_pos hfc1 hfb
  · have hfb : fb < 0 := by nlinarith
    have hfc1 : 0 < fc := by
      rcases lt_or_gt_of_ne hfc with h1 | h1
      · nlinarith
      · exact h1
    exact mul_neg_of_pos_of_neg hfc1 hfb

/-- A strictly negative bracket product forces a non-zero interpolation
denominator `fb - fa`. -/
lemma bracket_denominator_ne {fa fb : ℚ} (h : fa * fb < 0) : fb - fa ≠ 0 := by
  intro h0
  have hb : fb = fa := by linarith
  rw [hb] at h
  nlinarith [mul_self_nonneg fa]

/-- The False Position loop never raises and reports `iterations = N` on the
non-convergent (cap) path, as long as the bracketing invariant holds and the
tolerance is positive. -/
lemma fpLoop_ok (f : ℚ → ℚ) (tol : ℚ) (N : ℕ) :
    ∀ (fuel iteration : ℕ) (s : BracketRun),
      s.fa = f s.a → s.fb = f s.b → s.fa * s.fb < 0 → 0 < tol →
      ∃ r s', falsePositionLoop f tol N fuel iteration s = .ok (r, s') ∧
        (r.convergence_achieved = false → r.iterations = N) := by
  intro fuel
  induction fuel with
  | zero =>
      intro iteration s ha hb hprod htol
      have hden : s.fb - s.fa ≠ 0 := bracket_denominator_ne hprod
      refine ⟨⟨s.a - s.fa * (s.b - s.a) / (s.fb - s.fa), N, false,
          min |s.a - s.fa * (s.b - s.a) / (s.fb - s.fa) - s.a|
            |s.a - s.fa * (s.b - s.a) / (s.fb - s.fa) - s.b|,
          "False Position Method (Regula Falsi)", s.evals⟩, s, ?_, fun _ => rfl⟩
      rw [falsePositionLoop]
      rw [dif_pos rfl]
      rw [if_neg hden]
  | succ fuel ih =>
      intro iteration s ha hb hprod htol
      have hden : s.fb - s.fa ≠ 0 := bracket_denominator_ne hprod
      have hloop : falsePositionLoop f tol N (fuel + 1) iteration s =
          match falsePositionStep f tol iteration s with
          | .zeroDiv => .error "ZeroDivisionError"
          | .done r s' => .ok (r, s')
          | .next s' => falsePositionLoop f tol N fuel (iteration + 1) s' := by
        rw [falsePositionLoop]
        rw [dif_neg (Nat.succ_ne_zero fuel)]
        simp only [Nat.add_sub_cancel]
      rw [hloop]
      rw [falsePositionStep]
      rw [if_neg hden]
      simp only []
      set x_new := s.a - s.fa * (s.b - s.a) / (s.fb - s.fa) with hx
      by_cases hconv : |f x_new| < tol ∨ min |x_new - s.a| |x_new - s.b| < tol
      · rw [if_pos hconv]
        exact ⟨_, _, rfl, fun hfalse => by simp at hfalse⟩
      · rw [if_neg hconv]
        by_cases hsign : s.fa * f x_new < 0
        · rw [if_pos hsign]
          exact ih (iteration + 1) _ ha rfl hsign htol
        · rw [if_neg hsign]
          have hfnew : f x_new ≠ 0 := by
            intro h0
            apply hconv
            left
            rw [h0]
            simpa using htol
          exact ih (iteration + 1) _ rfl hb
            (bracket_keep_sign hprod hfnew hsign) htol

/-- C5 counterexample: the zero function on `[0, 1]` is accepted at
construction (`f(0)·f(1) = 0 ≤ 0`), yet the first loop iteration of
`FalsePositionSolver.solve` divides by `f(b) - f(a) = 0` and raises
`ZeroDivisionError` instead of absorbing the pathology into the
convergence flag. -/
theorem C5_false_position_raises_counterexample :
    FalsePositionSolver.new (fun _ => 0) 0 1 (1 / 10 ^ 6) 3 =
      .ok ⟨fun _ => 0, 1 / 10 ^ 6, 3, 0, 1, [], 2⟩ ∧
    falsePositionSolve ⟨fun _ => 0, 1 / 10 ^ 6, 3, 0, 1, [], 2⟩ =
      .error "ZeroDivisionError" := by
  constructor
  · norm_num [FalsePositionSolver.new]
  · norm_num [falsePositionSolve, falsePositionLoop, falsePositionStep, eps15,
      abs_of_nonneg, abs_of_nonpos]

/-- C5 amended: for every bracket with a *strict* sign change
(`f(a)·f(b) < 0`) and positive tolerance, `FalsePositionSolver.solve` never
raises — the interpolation denominator can never vanish — and reaching the
iteration cap yields `convergence_achieved = false` with
`iterations = max_iterations` rather than throwing.  (The boundary case
`f(a)·f(b) = 0` admitted by the constructor can raise `ZeroDivisionError`,
as the counterexample shows.) -/
theorem C5_false_position_no_raise_on_strict_bracket :
    ∀ (f : ℚ → ℚ) (a b tol : ℚ) (N : ℕ) (hist : List IterationResult)
      (evals : ℕ), f a * f b < 0 → 0 < tol →
      ∃ s' r calls,
        falsePositionSolve ⟨f, tol, N, a, b, hist, evals⟩ = .ok (s', r, calls) ∧
        (r.convergence_achieved = false → r.iterations = N) := by
  intro f a b tol N hist evals hbr htol
  obtain ⟨r, srun, hloop, hcap⟩ := fpLoop_ok f tol N N 1
    ⟨a, b, f a, f b, [⟨0, a, f a, some |b - a|, none⟩], 2, 2⟩ rfl rfl hbr htol
  refine ⟨⟨f, tol, N, a, b, srun.hist, srun.evals⟩, r, srun.calls, ?_, hcap⟩
  simp only [falsePositionSolve]
  rw [hloop]

/-- Witness for C5 (amended) on `f(x) = x² - 2` over `[1, 2]`. -/
theorem C5_false_position_no_raise_witness :
    ((fun x : ℚ => x * x - 2) 1 * (fun x : ℚ => x * x - 2) 2 < 0) ∧
    ((0 : ℚ) < 1 / 10) ∧
    ∃ s' r calls,
      falsePositionSolve ⟨fun x => x * x - 2, 1 / 10, 1, 1, 2, [], 0⟩ =
        .ok (s', r, calls) ∧
      (r.convergence_achieved = false → r.iterations = 1) :=
  ⟨by norm_num, by norm_num,
   C5_false_position_no_raise_on_strict_bracket (fun x => x * x - 2) 1 2
     (1 / 10) 1 [] 0 (by norm_num) (by norm_num)⟩

set_option maxHeartbeats 1000000 in
/-- C2 counterexample: the returned `SolverResult` aliases the solver's
`iteration_history` list (Python passes the list by reference and
`reset_counters()` clears that same list in place), so a later `solve()` on
the same instance — here after raising `max_iterations` from 1 to 2 —
changes the history seen through the first result from 2 entries to 3,
refuting "never mutated afterward". -/
theorem C2_history_aliasing_counterexample :
    (bisectionSolve ⟨fun x => x, 1 / 1000, 1, -1, 2, [], 0⟩).1.iteration_history.length = 2 ∧
    (bisectionSolve { (bisectionSolve ⟨fun x => x, 1 / 1000, 1, -1, 2, [], 0⟩).1 with
        max_iterations := 2 }).1.iteration_history.length = 3 ∧
    (bisectionSolve { (bisectionSolve ⟨fun x => x, 1 / 1000, 1, -1, 2, [], 0⟩).1 with
        max_iterations := 2 }).1.iteration_history ≠
      (bisectionSolve ⟨fun x => x, 1 / 1000, 1, -1, 2, [], 0⟩).1.iteration_history := by
  have hs1 : (bisectionSolve ⟨fun x => x, 1 / 1000, 1, -1, 2, [], 0⟩).1 =
      ⟨fun x => x, 1 / 1000, 1, -1, 2,
        [⟨0, -1, -1, some 3, none⟩,
         ⟨1, 1 / 2, 1 / 2, some (3 / 2),
          some (3000000000000000 / 1000000000000002)⟩], 3⟩ := by
    norm_num [bisectionSolve, bisectionLoop, bisectionStep, eps15,
      abs_of_nonneg, abs_of_nonpos]
  have h1 : (bisectionSolve ⟨fun x => x, 1 / 1000, 1, -1, 2, [], 0⟩).1.iteration_history.length = 2 := by
    rw [hs1]
    rfl
  have h2 : (bisectionSolve { (bisectionSolve ⟨fun x => x, 1 / 1000, 1, -1, 2, [], 0⟩).1 with
      max_iterations := 2 }).1.iteration_history.length = 3 := by
    rw [hs1]
    norm_num [bisectionSolve, bisectionLoop, bisectionStep, eps15,
      abs_of_nonneg, abs_of_nonpos]
  refine ⟨h1, h2, fun heq => ?_⟩
  rw [heq, h1] at h2
  exact absurd h2 (by norm_num)

/-- C2 amended: repeating `solve()` on the same instance with unchanged
configuration is deterministic — same `SolverResult` contents
(`execution_time` is wall clock and outside the model) and the rebuilt
history list has identical content — even though the first result's history
list is cleared and rebuilt in place by the second call. -/
theorem C2_repeat_solve_deterministic :
    ∀ s : BisectionSolver,
      (bisectionSolve (bisectionSolve s).1).2.1 = (bisectionSolve s).2.1 ∧
      (bisectionSolve (bisectionSolve s).1).1.iteration_history =
        (bisectionSolve s).1.iteration_history :=
  fun _ => ⟨rfl, rfl⟩

/-- C7 counterexample: the claim allows any accepted bracket, i.e.
`f(a)·f(b) ≤ 0`.  For `f = id` on `[0, 2]` (accepted: `0·2 = 0 ≤ 0`,
`fa = f(0) = 0`, `fb = f(2) = 2`) the first bisection replacement takes the
`else` branch (`0·f(1) = 0` is not `< 0`) and continues with the bracket
`[1, 2]`, whose sign product is `2 > 0`: the invariant is not preserved. -/
theorem C7_bracket_invariant_counterexample :
    ((fun x : ℚ => x) 0 * (fun x : ℚ => x) 2 ≤ 0) ∧
    nextSignProduct (bisectionStep (fun x : ℚ => x) (1 / 10 ^ 6) 1
        ⟨0, 2, (fun x : ℚ => x) 0, (fun x : ℚ => x) 2, [], 0, 0⟩) = some 2 ∧
    ¬ ((2 : ℚ) ≤ 0) := by
  refine ⟨by norm_num, ?_, by norm_num⟩
  norm_num [bisectionStep, nextSignProduct, eps15, abs_of_nonneg, abs_of_nonpos]

/-- C7 amended: with a *strict* sign change (`f(a)·f(b) < 0`) and positive
tolerance, one loop iteration of Bisection or False Position either returns
or continues with a bracket that again satisfies the strict invariant
(hence `f(a)·f(b) ≤ 0`); the `≤ 0` form claimed over all accepted brackets
fails exactly on the boundary `f(a)·f(b) = 0`, per the counterexample. -/
theorem C7_bracket_invariant_amended :
    ∀ (f : ℚ → ℚ) (tol : ℚ) (iteration : ℕ) (s : BracketRun),
      bracketInv f s → 0 < tol →
      bracketInv f ((bisectionStep f tol iteration s).nextOr s) ∧
      bracketInv f ((falsePositionStep f tol iteration s).nextOr s) := by
  intro f tol iteration s hinv htol
  obtain ⟨ha, hb, hprod⟩ := hinv
  constructor
  · simp only [bisectionStep]
    by_cases hconv : |f ((s.a + s.b) / 2)| < tol ∨ |s.b - s.a| / 2 < tol
    · rw [if_pos hconv]
      exact ⟨ha, hb, hprod⟩
    · rw [if_neg hconv]
      by_cases hsign : s.fa * f ((s.a + s.b) / 2) < 0
      · rw [if_pos hsign]
        exact ⟨ha, rfl, hsign⟩
      · rw [if_neg hsign]
        have hfc : f ((s.a + s.b) / 2) ≠ 0 := by
          intro h0
          apply hconv
          left
          rw [h0]
          simpa using htol
        exact ⟨rfl, hb, bracket_keep_sign hprod hfc hsign⟩
  · simp only [falsePositionStep]
    have hden : s.fb - s.fa ≠ 0 := bracket_denominator_ne hprod
    rw [if_neg hden]
    set x_new := s.a - s.fa * (s.b - s.a) / (s.fb - s.fa) with hx
    by_cases hconv : |f x_new| < tol ∨ min |x_new - s.a| |x_new - s.b| < tol
    · rw [if_pos hconv]
      exact ⟨ha, hb, hprod⟩
    · rw [if_neg hconv]
      by_cases hsign : s.fa * f x_new < 0
      · rw [if_pos hsign]
        exact ⟨ha, rfl, hsign⟩
      · rw [if_neg hsign]
        have hfnew : f x_new ≠ 0 := by
          intro h0
          apply hconv
          left
          rw [h0]
          simpa using htol
        exact ⟨rfl, hb, bracket_keep_sign hprod hfnew hsign⟩

/-- Witness for C7 (amended) on `f(x) = x² - 2` over the strict bracket
`[1, 2]`, where both methods continue. -/
theorem C7_bracket_invariant_amended_witness :
    bracketInv (fun x : ℚ => x * x - 2) ⟨1, 2, -1, 2, [], 0, 0⟩ ∧ (0 : ℚ) < 1 / 10 ∧
    (bracketInv (fun x : ℚ => x * x - 2)
        ((bisectionStep (fun x : ℚ => x * x - 2) (1 / 10) 1
          ⟨1, 2, -1, 2, [], 0, 0⟩).nextOr ⟨1, 2, -1, 2, [], 0, 0⟩) ∧
      bracketInv (fun x : ℚ => x * x - 2)
        ((falsePositionStep (fun x : ℚ => x * x - 2) (1 / 10) 1
          ⟨1, 2, -1, 2, [], 0, 0⟩).nextOr ⟨1, 2, -1, 2, [], 0, 0⟩)) :=
  ⟨by norm_num [bracketInv], by norm_num,
   C7_bracket_invariant_amended (fun x => x * x - 2) (1 / 10) 1
     ⟨1, 2, -1, 2, [], 0, 0⟩ (by norm_num [bracketInv]) (by norm_num)⟩

lemma GaussQ.sub_self (z : GaussQ) : z - z = 0 := by
  show (⟨z.re - z.re, z.im - z.im⟩ : GaussQ) = ⟨0, 0⟩
  simp

/-- C1: the claim states that a `NewtonRaphsonSolver` constructed without an
analytical derivative is built successfully and `solve()` falls back to the
central-difference estimate.  In the code, `__init__` then executes
`NumericalDerivative(self.function)`, and `NumericalDerivative` has only
static methods and no `__init__`, so construction raises
`TypeError: NumericalDerivative() takes no arguments` — the module's own
`__main__` demo (`NewtonRaphsonSolver(test_function, None, 1.5)`) crashes.
Construction with an analytical derivative succeeds. -/
theorem C1_newton_numerical_derivative_construction :
    NewtonRaphsonSolver.new (fun x => x ^ 3 - x - 1) none (3 / 2)
        (1 / 10 ^ 6) 100 =
      .error "TypeError: NumericalDerivative() takes no arguments" ∧
    (NewtonRaphsonSolver.new (fun x => x ^ 3 - x - 1)
        (some fun x => 3 * x ^ 2 - 1) (3 / 2) (1 / 10 ^ 6) 100).isOk = true :=
  ⟨rfl, rfl⟩


set_option maxHeartbeats 1000000 in
/-- C3 counterexample: Secant on the constant function `1` with seeds `0, 1`
and `max_iterations = 5` breaks out at the very first loop entry
(`|f(x1) - f(x0)| = 0 < 1e-15`), performs `0` secant updates, yet the
returned result reports `iterations = 5` — the maximum bound, not the
count actually run. -/
theorem C3_secant_cap_counterexample :
    (secantSolve ⟨fun _ => 1, 0, 1, 1 / 10 ^ 6, 5, [], 0⟩).2.1.iterations = 5 ∧
    (secantSolve ⟨fun _ => 1, 0, 1, 1 / 10 ^ 6, 5, [], 0⟩).2.2.2 = 0 ∧
    (secantSolve ⟨fun _ => 1, 0, 1, 1 / 10 ^ 6, 5, [], 0⟩).2.1.convergence_achieved
      = false ∧
    (5 : ℕ) ≠ 0 := by
  have hs : secantSolve ⟨fun _ => 1, 0, 1, 1 / 10 ^ 6, 5, [], 0⟩ =
      (⟨fun _ => 1, 0, 1, 1 / 10 ^ 6, 5,
        [⟨0, 0, 1, none, none⟩, ⟨1, 1, 1, none, none⟩], 2⟩,
       ⟨1, 5, false, 1, "Secant Method", 2⟩, 2, 0) := by
    norm_num [secantSolve, secantLoop, secantStep, secantEpilogue, eps15,
      abs_of_nonneg, abs_of_nonpos]
  rw [hs]
  refine ⟨rfl, rfl, rfl, by norm_num⟩

/-- C3 amended: when Secant stops early on near-equal function values, or
Muller stops early on coincident points, the result reports
non-convergence but with `iterations = max_iterations` (the cap), not the
number of iterations actually run; stopping at the first loop entry (shown
here: equal seed values for Secant, coincident seeds `x0 = x1` for Muller)
performs `0` updates while reporting `N`, and the history holds only the
seed entries. -/
theorem C3_early_stop_reports_max_iterations :
    (∀ (f : ℚ → ℚ) (x0 x1 tol : ℚ) (N : ℕ) (hist : List IterationResult)
        (evals : ℕ), f x0 = f x1 →
        (secantSolve ⟨f, x0, x1, tol, N, hist, evals⟩).2.1.convergence_achieved
            = false ∧
        (secantSolve ⟨f, x0, x1, tol, N, hist, evals⟩).2.1.iterations = N ∧
        (secantSolve ⟨f, x0, x1, tol, N, hist, evals⟩).2.2.2 = 0 ∧
        (secantSolve ⟨f, x0, x1, tol, N, hist,
            evals⟩).1.iteration_history.length = 2) ∧
    (∀ (cabs : GaussQ → ℚ) (csqrt : GaussQ → GaussQ) (f : GaussQ → GaussQ)
        (x0 x2 : GaussQ) (tol : ℚ) (N : ℕ) (hist : List IterationResult)
        (evals : ℕ), cabs 0 = 0 →
        (mullerSolve cabs csqrt
            ⟨f, x0, x0, x2, tol, N, hist, evals⟩).2.1.convergence_achieved
            = false ∧
        (mullerSolve cabs csqrt
            ⟨f, x0, x0, x2, tol, N, hist, evals⟩).2.1.iterations = N ∧
        (mullerSolve cabs csqrt ⟨f, x0, x0, x2, tol, N, hist, evals⟩).2.2.2
            = 0 ∧
        (mullerSolve cabs csqrt
            ⟨f, x0, x0, x2, tol, N, hist,
              evals⟩).1.iteration_history.length = 3) := by
  constructor
  · intro f x0 x1 tol N hist evals hf
    have key : ∀ (fuel iteration : ℕ) (s : SecantRun),
        s.f_curr - s.f_prev = 0 →
        secantLoop f tol N fuel iteration s = secantEpilogue N s := by
      intro fuel iteration s h0
      have hstop : secantStep f tol iteration s = .stop := by
        simp only [secantStep]
        rw [if_pos (by rw [h0]; norm_num [eps15])]
      by_cases hfuel : fuel = 0
      · rw [secantLoop, dif_pos hfuel]
      · rw [secantLoop, dif_neg hfuel, hstop]
    simp only [secantSolve]
    rw [key (N - 1) 2
      ⟨x0, x1, f x0, f x1,
       [⟨0, x0, f x0, none, none⟩, ⟨1, x1, f x1, none, none⟩], 2, 2, none, 0⟩
      (by show f x1 - f x0 = 0; rw [hf]; ring)]
    exact ⟨rfl, rfl, rfl, rfl⟩
  · intro cabs csqrt f x0 x2 tol N hist evals habs
    have key : ∀ (fuel iteration : ℕ) (s : MullerRun),
        cabs (s.p1 - s.p0) = 0 →
        mullerLoop cabs csqrt f tol N fuel iteration s =
          mullerEpilogue cabs N s := by
      intro fuel iteration s h0
      have hstop : mullerStep cabs csqrt f tol iteration s = .stop := by
        simp only [mullerStep]
        rw [if_pos (Or.inl (by rw [h0]; norm_num [eps15]))]
      by_cases hfuel : fuel = 0
      · rw [mullerLoop, dif_pos hfuel]
      · rw [mullerLoop, dif_neg hfuel, hstop]
    simp only [mullerSolve]
    rw [key (N - 2) 3
      ⟨x0, x0, x2, f x0, f x0, f x2,
       [⟨0, x0.re, cabs (f x0), none, none⟩,
        ⟨1, x0.re, cabs (f x0), none, none⟩,
        ⟨2, x2.re, cabs (f x2), none, none⟩], 3, 3, none, 0⟩
      (by show cabs (x0 - x0) = 0; rw [GaussQ.sub_self]; exact habs)]
    exact ⟨rfl, rfl, rfl, rfl⟩

/-- Witness for C3 (amended): Secant on the constant function `1` and Muller
on coincident seeds, both with `max_iterations = 7`, report `iterations = 7`. -/
theorem C3_early_stop_reports_max_iterations_witness :
    ((fun _ : ℚ => (1 : ℚ)) 0 = (fun _ : ℚ => (1 : ℚ)) 1) ∧
    ((fun _ : GaussQ => (0 : ℚ)) 0 = 0) ∧
    (secantSolve ⟨fun _ => 1, 0, 1, 1 / 10 ^ 6, 7, [], 0⟩).2.1.iterations = 7 ∧
    (mullerSolve (fun _ => 0) id
        ⟨id, ⟨0, 0⟩, ⟨0, 0⟩, ⟨1, 0⟩, 1 / 10 ^ 6, 7, [], 0⟩).2.1.iterations = 7 :=
  ⟨rfl, rfl,
   (C3_early_stop_reports_max_iterations.1 (fun _ => 1) 0 1 (1 / 10 ^ 6) 7
     [] 0 rfl).2.1,
   (C3_early_stop_reports_max_iterations.2 (fun _ => 0) id id ⟨0, 0⟩ ⟨1, 0⟩
     (1 / 10 ^ 6) 7 [] 0 rfl).2.1⟩

/-- Through the whole bisection loop, the reported evaluation counter equals
the ghost count of actual invocations: every call goes through
`evaluate_function`, which bumps both by one. -/
lemma bisectionLoop_counts (f : ℚ → ℚ) (tol : ℚ) (N : ℕ) :
    ∀ (fuel iteration : ℕ) (s : BracketRun), s.evals = s.calls →
      (bisectionLoop f tol N fuel iteration s).1.function_evaluations =
        (bisectionLoop f tol N fuel iteration s).2.calls := by
  intro fuel
  induction fuel with
  | zero =>
      intro iteration s h
      rw [bisectionLoop, dif_pos rfl]
      exact h
  | succ fuel ih =>
      intro iteration s h
      rw [bisectionLoop, dif_neg (Nat.succ_ne_zero fuel)]
      simp only [Nat.add_sub_cancel, bisectionStep]
      by_cases h1 : |f ((s.a + s.b) / 2)| < tol ∨ |s.b - s.a| / 2 < tol
      · rw [if_pos h1]
        show s.evals + 1 = s.calls + 1
        omega
      · rw [if_neg h1]
        by_cases h2 : s.fa * f ((s.a + s.b) / 2) < 0
        · rw [if_pos h2]
          exact ih (iteration + 1) _ (by show s.evals + 1 = s.calls + 1; omega)
        · rw [if_neg h2]
          exact ih (iteration + 1) _ (by show s.evals + 1 = s.calls + 1; omega)

/-- The fixed-point loop returns `.ok` for positive iteration caps, with the
reported counter equal to the iteration count while the supplied `g` is
invoked `2·iterations + 1` times. -/
lemma fixedPointLoop_counts (g : ℚ → ℚ) (tol : ℚ) (N : ℕ) :
    ∀ (fuel iteration : ℕ) (s : FixedPointRun),
      s.calls = 2 * s.evals + 1 →
      iteration = s.evals + 1 →
      fuel + s.evals = N →
      (s.lastState = none → s.evals = 0) →
      1 ≤ N →
      ∃ r run, fixedPointLoop g tol N fuel iteration s = .ok (r, run) ∧
        r.function_evaluations = r.iterations ∧
        run.calls = 2 * r.iterations + 1 := by
  intro fuel
  induction fuel with
  | zero =>
      intro iteration s hc hi hfuel hnone hN
      have hev : s.evals = N := by omega
      cases hls : s.lastState with
      | none =>
          exact absurd (hnone hls) (by omega)
      | some st =>
          refine ⟨⟨s.x, N, false, st.1,
            "Fixed-Point Method (Method of Successive Approximation)",
            s.evals⟩, s, ?_, ?_, ?_⟩
          · have hunfold : fixedPointLoop g tol N 0 iteration s =
                match s.lastState with
                | none => .error "NameError: name accessed before assignment"
                | some st =>
                    .ok (⟨s.x, N, false, st.1,
                      "Fixed-Point Method (Method of Successive Approximation)",
                      s.evals⟩, s) := rfl
            rw [hunfold, hls]
          · show s.evals = N
            exact hev
          · show s.calls = 2 * N + 1
            omega
  | succ fuel ih =>
      intro iteration s hc hi hfuel hnone hN
      have hunfold : fixedPointLoop g tol N (fuel + 1) iteration s =
          match fixedPointStep g tol iteration s with
          | .done r s' => .ok (r, s')
          | .next s' => fixedPointLoop g tol N fuel (iteration + 1) s' := rfl
      rw [hunfold]
      simp only [fixedPointStep]
      by_cases hconv :
          (calculate_errors (g s.x) s.x).1 < tol ∨ |g s.x - g (g s.x)| < tol
      · rw [if_pos hconv]
        refine ⟨_, _, rfl, ?_, ?_⟩
        · show s.evals + 1 = iteration
          omega
        · show s.calls + 2 = 2 * iteration + 1
          omega
      · rw [if_neg hconv]
        by_cases hdiv : |g s.x| > big10
        · rw [if_pos hdiv]
          refine ⟨_, _, rfl, ?_, ?_⟩
          · show s.evals + 1 = iteration
            omega
          · show s.calls + 2 = 2 * iteration + 1
            omega
        · rw [if_neg hdiv]
          refine ih (iteration + 1) _ ?_ ?_ ?_ ?_ hN
          · show s.calls + 2 = 2 * (s.evals + 1) + 1
            omega
          · show iteration + 1 = s.evals + 1 + 1
            omega
          · show fuel + (s.evals + 1) = N
            omega
          · intro hcontra
            cases hcontra

set_option maxHeartbeats 1000000 in
/-- C6 counterexample: `FixedPointSolver.solve` with `g ≡ 0`, guess `1`
invokes `g` three times (initial residual, update, residual of the update)
but reports `function_evaluations = 1`: the claim that every invocation
passes through `evaluateFunction` fails — `solve` calls `g` directly and
bumps the counter manually only once per iteration. -/
theorem C6_fixed_point_counter_counterexample :
    (∃ s' r, fixedPointSolve ⟨fun _ => 0, 1, 1 / 10 ^ 6, 10, [], 0⟩ =
        .ok (s', r, 3) ∧ r.function_evaluations = 1) ∧
    (1 : ℕ) ≠ 3 := by
  constructor
  · refine ⟨⟨fun _ => 0, 1, 1 / 10 ^ 6, 10,
      [⟨0, 1, 1, none, none⟩, ⟨1, 0, 0, some 1, some 1⟩], 1⟩,
      ⟨0, 1, true, 1,
        "Fixed-Point Method (Method of Successive Approximation)", 1⟩, ?_, rfl⟩
    norm_num [fixedPointSolve, fixedPointLoop, fixedPointStep,
      calculate_errors, eps15, big10, abs_of_nonneg, abs_of_nonpos]
  · norm_num

/-- C6 amended: for a solver whose `solve()` routes every invocation of the
supplied function through `evaluate_function` (shown for Bisection), the
reported `function_evaluations` equals the number of actual invocations
during that call.  `FixedPointSolver.solve` does not: it calls `g` directly
— one uncounted initial residual evaluation, then per iteration one counted
update evaluation and one uncounted residual evaluation — so (non-verbose,
`max_iterations ≥ 1`) it returns `function_evaluations = iterations` while
`g` is actually invoked `2·iterations + 1` times. -/
theorem C6_function_evaluation_counter :
    (∀ s : BisectionSolver,
        (bisectionSolve s).2.1.function_evaluations = (bisectionSolve s).2.2) ∧
    (∀ (g : ℚ → ℚ) (x0 tol : ℚ) (N : ℕ) (hist : List IterationResult)
        (evals : ℕ), 1 ≤ N →
        ∃ s' r calls,
          fixedPointSolve ⟨g, x0, tol, N, hist, evals⟩ = .ok (s', r, calls) ∧
          r.function_evaluations = r.iterations ∧
          calls = 2 * r.iterations + 1) := by
  constructor
  · intro s
    simp only [bisectionSolve]
    exact bisectionLoop_counts s.function s.tolerance s.max_iterations
      s.max_iterations 1 _ rfl
  · intro g x0 tol N hist evals hN
    obtain ⟨r, run, hloop, h1, h2⟩ := fixedPointLoop_counts g tol N N 1
      ⟨x0, [⟨0, x0, x0 - g x0, none, none⟩], 0, 1, none⟩ rfl rfl rfl
      (fun _ => rfl) hN
    refine ⟨⟨g, x0, tol, N, run.hist, run.evals⟩, r, run.calls, ?_, h1, h2⟩
    simp only [fixedPointSolve]
    rw [hloop]

/-- Witness for C6 (amended) on `g(x) = x/2` with `max_iterations = 10`. -/
theorem C6_function_evaluation_counter_witness :
    (1 : ℕ) ≤ 10 ∧
    ∃ s' r calls,
      fixedPointSolve ⟨fun x => x / 2, 1, 1 / 10 ^ 6, 10, [], 0⟩ =
        .ok (s', r, calls) ∧
      r.function_evaluations = r.iterations ∧ calls = 2 * r.iterations + 1 :=
  ⟨by norm_num,
   C6_function_evaluation_counter.2 (fun x => x / 2) 1 (1 / 10 ^ 6) 10 [] 0
     (by norm_num)⟩
